import Mathlib

/-!
# AlteronOS: the AOSFS workers and the kernel entry point

A shallow embedding of `AOSFS/c_worker.c`, `AOSFS/cpp_worker.cpp` and
`kernel/kernel.c`, followed by the properties proved about it.

Standard output is modelled as the sequence of writes made to it. Every
`printf` of `c_worker.c` ends its format string with a line feed and every
output statement of `cpp_worker.cpp` ends with `std::endl`, so each output
statement contributes exactly one element: the text written before the line
terminator. `stdout_text` gives the characters that reach standard output and
`stdout_lines` the lines they form; a write whose text holds a line feed (an
argument is copied verbatim) spans several lines. C strings are Lean strings
(sequences of characters without the terminating NUL).
-/

namespace AlteronOS

/-! ## String primitives of the C and C++ libraries -/

/-- Offset of the first occurrence of `needle` in `haystack`, scanning from the
left; `none` stands for the null pointer of `strstr` and for
`std::string::npos` of `std::string::find`. -/
def findFrom : List Char → List Char → Option Nat
  | [], needle => if needle.isPrefixOf [] then some 0 else none
  | c :: rest, needle =>
    if needle.isPrefixOf (c :: rest) then some 0
    else (findFrom rest needle).map (· + 1)

/-- C library `strstr(haystack, needle)`: offset of the first occurrence. -/
def strstr (haystack needle : String) : Option Nat :=
  findFrom haystack.toList needle.toList

/-- The call `file.find(pattern)` of `std::string`, search starting at 0. -/
def std_string_find (file pattern : String) : Option Nat :=
  findFrom file.toList pattern.toList

/-- Lexicographic comparison of character sequences by character code, a proper
prefix first: `std::char_traits<char>::compare` followed by the length test, as
used by `std::string::compare`. -/
def lex_lt : List Char → List Char → Bool
  | _, [] => false
  | [], _ :: _ => true
  | a :: as, b :: bs =>
    if a.toNat < b.toNat then true
    else if b.toNat < a.toNat then false
    else lex_lt as bs

/-- The order `operator<` of `std::string`. -/
def string_lt (a b : String) : Bool :=
  lex_lt a.toList b.toList

/-- The call `std::sort(items.begin(), items.end())` on strings with the default
comparison `operator<`: an element is placed before the first element that is
not smaller than it. -/
def std_sort (items : List String) : List String :=
  items.insertionSort (fun a b => string_lt b a = false)

/-- The characters that reach standard output for a sequence of lines: each
line followed by the line feed that ends its `printf` format or that
`std::endl` writes. -/
def stdout_text (lines : List String) : String :=
  String.join (lines.map (fun line => line ++ "\n"))

/-- The character with code 10, written by the escape `\n` and by `std::endl`. -/
def line_feed : Char := Char.ofNat 10

/-- The lines of a character stream: a line ends at each line feed, and text
after the last line feed is a last, unterminated line. -/
def lines_of : List Char → List (List Char)
  | [] => []
  | c :: rest =>
    if c.toNat = 10 then [] :: lines_of rest
    else
      match lines_of rest with
      | [] => [[c]]
      | line :: others => (c :: line) :: others

/-- The lines that appear on standard output for a sequence of writes. -/
def stdout_lines (writes : List String) : List String :=
  (lines_of (stdout_text writes).toList).map String.mk

/-! ## AOSFS/c_worker.c -/

/-- Source `c_ls`: six fixed lines, the path is not used. -/
def c_ls (_path : String) : List String :=
  [ "drwxr-xr-x 1 root root 4096 Jan 1 00:00 System.dir",
    "drwxr-xr-x 1 root root 4096 Jan 1 00:00 Programs.dir",
    "drwxr-xr-x 1 root root 4096 Jan 1 00:00 Users.dir",
    "drwxr-xr-x 1 root root 4096 Jan 1 00:00 Config.dir",
    "-rw-r--r-- 1 root root  123 Jan 1 00:00 readme.txt",
    "-rw-r--r-- 1 root root  456 Jan 1 00:00 version.txt" ]

/-- Source `c_cat`: two `strstr` tests in sequence, then the fallback. -/
def c_cat (filename : String) : List String :=
  if (strstr filename "readme").isSome then
    [ "Welcome to AlteronOS",
      "Built with C, Rust, Go, C++, Python" ]
  else if (strstr filename "version").isSome then
    [ "AlteronOS v2.0",
      "Kernel: Python Manager",
      "FS: AOSFS" ]
  else
    [ "File content: " ++ filename ]

/-- Writes made and the `int` returned by one of the status-returning
functions of the C worker. -/
structure CResult where
  out : List String
  status : Int
  deriving DecidableEq, Repr

/-- Source `c_mkdir`. -/
def c_mkdir (path : String) : CResult :=
  { out := ["C: Creating directory: " ++ path], status := 0 }

/-- Source `c_rm`. -/
def c_rm (path : String) : CResult :=
  { out := ["C: Removing: " ++ path], status := 0 }

/-- Source `c_cp`. -/
def c_cp (source dest : String) : CResult :=
  { out := ["C: Copying " ++ source ++ " to " ++ dest], status := 0 }

/-- Source `c_mv`. -/
def c_mv (source dest : String) : CResult :=
  { out := ["C: Moving " ++ source ++ " to " ++ dest], status := 0 }

/-- Source `c_chmod`. -/
def c_chmod (path mode : String) : CResult :=
  { out := ["C: Changing permissions of " ++ path ++ " to " ++ mode], status := 0 }

/-- Source `c_touch`. -/
def c_touch (filename : String) : CResult :=
  { out := ["C: Creating file: " ++ filename], status := 0 }

/-- Source `c_echo`. -/
def c_echo (text : String) : List String :=
  [text]

/-- Source `c_pwd`. -/
def c_pwd : List String :=
  ["A:\\Alteron"]

/-- Source `init_c_worker`. -/
def init_c_worker : List String :=
  ["C Worker: Unix tools ready (ls, cat, mkdir, rm, cp, mv, chmod, touch, echo, pwd)"]

/-! ## AOSFS/cpp_worker.cpp -/

/-- Source `cpp_fast_copy`. -/
def cpp_fast_copy (source dest : String) : List String :=
  ["C++: High-performance copy " ++ source ++ " -> " ++ dest]

/-- Outcome of `cpp_bulk_operations`: the writes made and the indices of
`files` that were read, in the order of the reads. -/
structure BulkRun where
  out : List String
  reads : List Nat
  deriving DecidableEq, Repr

/-- Body of the loop `for (int i = 0; i < count; ++i)` of
`cpp_bulk_operations`, entered with `remaining = count - i` iterations still to
run. Reading `files[i]` past the end of the array has no defined result and is
reported as `none`. -/
def bulk_loop (files : List String) : Nat → Nat → Option BulkRun
  | _, 0 => some { out := [], reads := [] }
  | i, remaining + 1 =>
    match files[i]? with
    | none => none
    | some file =>
      match bulk_loop files (i + 1) remaining with
      | none => none
      | some run =>
        some { out := ("  [" ++ toString i ++ "] " ++ file) :: run.out,
               reads := i :: run.reads }

/-- Source `cpp_bulk_operations`. The loop condition `i < count` fails at once
when `count ≤ 0` and otherwise holds for `count` iterations, which is
`count.toNat` in both cases. -/
def cpp_bulk_operations (files : List String) (count : Int) : Option BulkRun :=
  match bulk_loop files 0 count.toNat with
  | none => none
  | some run =>
    some { out := ("C++: Bulk processing " ++ toString count ++ " files:") :: run.out,
           reads := run.reads }

/-- The vector `items` of `cpp_performance_ls`, in source order. -/
def ls_items : List String :=
  [ "System.dir/", "Programs.dir/", "Users.dir/", "Config.dir/",
    "app.exe", "program.deb", "installer.dmg", "script.sh" ]

/-- Source `cpp_performance_ls`: sort the fixed items, print the header, then
one indented line per item. The path is not used. -/
def cpp_performance_ls (_path : String) : List String :=
  "C++ Performance LS:" :: (std_sort ls_items).map (fun item => "  " ++ item)

/-- Source `cpp_system_info`. -/
def cpp_system_info : List String :=
  [ "C++ System Info:",
    "  OS: AlteronOS",
    "  Architecture: x86_64",
    "  Memory: 1024MB",
    "  Storage: AOSFS" ]

/-- The vector `all_files` of `cpp_advanced_find`, in source order. -/
def all_files : List String :=
  [ "System.dir/kernel.sys",
    "System.dir/drivers/",
    "Users.dir/documents/readme.txt",
    "Programs.dir/apps/terminal.alt",
    "Config.dir/settings.conf" ]

/-- The range-for loop of `cpp_advanced_find` over the remaining files. -/
def find_loop (pattern : String) : List String → List String
  | [] => []
  | file :: rest =>
    if (std_string_find file pattern).isSome then
      ("  " ++ file) :: find_loop pattern rest
    else
      find_loop pattern rest

/-- Source `cpp_advanced_find`. -/
def cpp_advanced_find (pattern directory : String) : List String :=
  ("C++ Find \x27" ++ pattern ++ "\x27 in " ++ directory ++ ":") :: find_loop pattern all_files

/-- Source `init_cpp_worker`. -/
def init_cpp_worker : List String :=
  ["C++ Worker: Performance tools ready (fast copy, bulk ops, system info, advanced find)"]


/-! ## kernel/kernel.c -/

/-- The part of the machine state `kernel.c` works on: the cells of
`vga_buffer` by index, the static variable `cursor` of `print`, and all other
memory (not touched by `kernel.c`, available to the extern hooks). -/
structure Machine where
  vga : Nat → Nat
  cursor : Nat
  memory : Nat → Nat

/-- State at the entry of `kernel_main`: `cursor` holds its initialiser 0. -/
def entry_state (vga memory : Nat → Nat) : Machine :=
  { vga := vga, cursor := 0, memory := memory }

/-- The three extern functions declared in `kernel.c`. -/
inductive Hook where
  | rust_kernel_init
  | cpp_kext_init
  | go_kext_init
  deriving DecidableEq, Repr

/-- What `kernel_main` is observed to do: store a value in a cell of
`vga_buffer`, call an extern hook, enter the loop `while(1) asm("hlt")`. -/
inductive Event where
  | write (index value : Nat)
  | call (hook : Hook)
  | halt
  deriving DecidableEq, Repr

/-- A machine state together with the events recorded so far, oldest first. -/
structure Exec where
  machine : Machine
  log : List Event

/-- The value of `(uint16_t)(0x07 << 8) | *str` for the byte `b` of a string.
A byte below 128 promotes to `int` unchanged. With the signed `char` of x86 a
byte from 128 up promotes to `b - 256`, whose bits above the low eight are all
set, so the low sixteen bits of the result are `0xFF00 | b`. -/
def vga_cell (b : Nat) : Nat :=
  if b < 128 then ((0x07 <<< 8) ||| b) % 2 ^ 16 else (0xFF00 ||| b) % 2 ^ 16

/-- The assignment `vga_buffer[index] = value`. -/
def Exec.store (x : Exec) (index value : Nat) : Exec :=
  { machine := { x.machine with vga := Function.update x.machine.vga index value },
    log := x.log ++ [Event.write index value] }

/-- Source `print`: for each byte before the terminating NUL, store its cell at
`cursor` and increment `cursor`. -/
def print : List Nat → Exec → Exec
  | [], x => x
  | b :: rest, x =>
    let stored := x.store x.machine.cursor (vga_cell b)
    print rest { stored with machine := { stored.machine with cursor := x.machine.cursor + 1 } }

/-- The loop `for (int i = 0; i < 80 * 25; i++) vga_buffer[i] = 0x0720`, entered
at index `i` with `remaining` iterations to run. -/
def clear_loop : Nat → Nat → Exec → Exec
  | 0, _, x => x
  | remaining + 1, i, x => clear_loop remaining (i + 1) (x.store i 0x0720)

/-- The bytes of a string literal whose characters are all ASCII. -/
def c_string (s : String) : List Nat :=
  s.toList.map Char.toNat

/-- First message of `kernel_main`. -/
def msg_banner : List Nat := c_string "AlteronOS Kernel v2.0"

/-- Second message of `kernel_main`. -/
def msg_rust : List Nat := c_string "\nInitializing Rust components..."

/-- Third message of `kernel_main`. -/
def msg_kext : List Nat := c_string "\nLoading kernel extensions..."

/-- Fourth message of `kernel_main`. -/
def msg_python : List Nat := c_string "\nStarting Python kernel manager..."

/-- Behaviour of the three extern hooks: from the machine state at the call to
the state at the return, or `none` when the call does not return. -/
structure Hooks where
  rust_kernel_init : Machine → Option Machine
  cpp_kext_init : Machine → Option Machine
  go_kext_init : Machine → Option Machine

/-- Result of running `kernel_main`: the events in order and, when every hook
returned, the machine state in which the halt loop is entered. -/
structure Run where
  log : List Event
  final : Option Machine

/-- Source `kernel_main`. -/
def kernel_main (hooks : Hooks) (m : Machine) : Run :=
  let cleared := clear_loop (80 * 25) 0 { machine := m, log := [] }
  let x1 := print msg_rust (print msg_banner cleared)
  match hooks.rust_kernel_init x1.machine with
  | none => { log := x1.log ++ [Event.call Hook.rust_kernel_init], final := none }
  | some m2 =>
    let x2 := print msg_kext
      { machine := m2, log := x1.log ++ [Event.call Hook.rust_kernel_init] }
    match hooks.cpp_kext_init x2.machine with
    | none => { log := x2.log ++ [Event.call Hook.cpp_kext_init], final := none }
    | some m3 =>
      match hooks.go_kext_init m3 with
      | none =>
        { log := x2.log ++ [Event.call Hook.cpp_kext_init, Event.call Hook.go_kext_init],
          final := none }
      | some m4 =>
        let x4 := print msg_python
          { machine := m4,
            log := x2.log ++ [Event.call Hook.cpp_kext_init, Event.call Hook.go_kext_init] }
        { log := x4.log ++ [Event.halt], final := some x4.machine }

/-! ## The registry, the boot sequencer and the dispatcher

None of the three source files contains a registry, a boot sequencer or a
dispatcher: the workers are plain functions. This part follows sections 3 and 4
of the specification; the entry points of the two built-in workers are the
source functions above.
-/

/-- Modelled from the spec: the enumeration Operation of section 3, absent from
the source. -/
inductive Operation where
  | List | ReadFile | CreateDir | Remove | Copy | Move | ChangeMode | CreateFile
  | Echo | PrintWorkingDirectory | SystemInfo | Find | BulkOperation
  deriving DecidableEq, Repr

/-- Modelled from the spec: WorkerId of section 3, a string token. -/
abbrev WorkerId := String

/-- Modelled from the spec: Capability of section 3, an Operation with a
priority rank. -/
structure Capability where
  operation : Operation
  priority : Nat
  deriving DecidableEq, Repr

/-- Modelled from the spec: the health status of a WorkerRecord. -/
inductive Health where
  | Uninitialized | Ready | Failed
  deriving DecidableEq, Repr

/-- Modelled from the spec: what a worker hands back from `execute` before the
dispatcher adds the WorkerId (section 4.1). -/
structure WorkerOutput where
  success : Bool
  lines : List String
  error : Option String
  deriving DecidableEq, Repr

/-- Modelled from the spec: WorkerRecord of section 3 (id, capabilities, health,
execution entry points indexed by Operation). -/
structure WorkerRecord where
  id : WorkerId
  capabilities : List Capability
  health : Health
  execute : Operation → List String → WorkerOutput

/-- Modelled from the spec: the Registry of section 4.2, its records in
registration order. -/
abbrev Registry := List WorkerRecord

/-- Modelled from the spec: the error taxonomy of section 7 as far as the
registry and the dispatcher raise it. -/
inductive CoreError where
  | DuplicateWorkerId | InvalidHealthTransition | NoEligibleWorker | SystemNotReady
  deriving DecidableEq, Repr

/-- Modelled from the spec: `register` of section 4.2, which fails with
DuplicateWorkerId when the id already exists. -/
def register (reg : Registry) (w : WorkerRecord) : Except CoreError Registry :=
  if reg.any (fun r => r.id = w.id) then Except.error CoreError.DuplicateWorkerId
  else Except.ok (reg ++ [w])

/-- Modelled from the spec: the state machine Uninitialized to Ready or Failed of
section 4.3, single transition, no re-entry. -/
def valid_transition : Health → Health → Bool
  | Health.Uninitialized, Health.Ready => true
  | Health.Uninitialized, Health.Failed => true
  | _, _ => false

/-- Modelled from the spec: `set_health` of section 4.2; a transition outside
the state machine fails with InvalidHealthTransition, as does an id that is not
registered. -/
def set_health (reg : Registry) (id : WorkerId) (status : Health) :
    Except CoreError Registry :=
  match reg.find? (fun r => r.id = id) with
  | none => Except.error CoreError.InvalidHealthTransition
  | some r =>
    if valid_transition r.health status then
      Except.ok (reg.map (fun w => if w.id = id then { w with health := status } else w))
    else Except.error CoreError.InvalidHealthTransition

/-- Modelled from the spec: the priority a worker declared for an Operation, if
it declared a Capability for it. -/
def WorkerRecord.priorityFor (w : WorkerRecord) (op : Operation) : Option Nat :=
  (w.capabilities.find? (fun c => c.operation = op)).map (fun c => c.priority)

/-- Modelled from the spec: the records `resolve` considers, the Ready records
whose Capability set includes the Operation (section 4.2). -/
def eligible (reg : Registry) (op : Operation) : List WorkerRecord :=
  reg.filter (fun w => w.health = Health.Ready ∧ (w.priorityFor op).isSome)

/-- Modelled from the spec: the priority rank used for sorting. -/
def rank (op : Operation) (w : WorkerRecord) : Nat :=
  (w.priorityFor op).getD 0

/-- Modelled from the spec: the sort key of `resolve`, priority descending and
then WorkerId ascending in lexical order; `a` may stand before `b`. -/
def before (op : Operation) (a b : WorkerRecord) : Prop :=
  rank op b < rank op a ∨ (rank op a = rank op b ∧ string_lt b.id a.id = false)

instance (op : Operation) : DecidableRel (before op) := by
  intro a b
  unfold before
  infer_instance

/-- Modelled from the spec: `resolve` of section 4.2 on records. All Ready
records whose Capability set includes the Operation are sorted by priority
descending then WorkerId ascending; when a routing hint names a preference
class, the workers matching it are placed first and the others are kept behind
them. Which workers a hint matches is not fixed by the spec and is the
parameter `prefers`. -/
def resolve_records (prefers : String → WorkerRecord → Bool) (reg : Registry)
    (op : Operation) (hint : Option String) : List WorkerRecord :=
  let sorted := (eligible reg op).insertionSort (before op)
  match hint with
  | none => sorted
  | some h => sorted.filter (fun w => prefers h w) ++ sorted.filter (fun w => !prefers h w)

/-- Modelled from the spec: `resolve(Operation, routing_hint)`, the ordered
sequence of WorkerId, best match first. -/
def resolve (prefers : String → WorkerRecord → Bool) (reg : Registry)
    (op : Operation) (hint : Option String) : List WorkerId :=
  (resolve_records prefers reg op hint).map (fun w => w.id)

/-- Modelled from the spec: Command of section 3. -/
structure Command where
  operation : Operation
  arguments : List String
  routing_hint : Option String
  deriving DecidableEq, Repr

/-- Modelled from the spec: CommandResult of section 3. -/
structure CommandResult where
  success : Bool
  lines : List String
  worker_id : Option WorkerId
  error : Option String
  deriving DecidableEq, Repr

/-- Modelled from the spec: the terminal states of the boot (section 4.3). -/
inductive BootState where
  | Ready | Degraded | Halted
  deriving DecidableEq, Repr

/-- Modelled from the spec: an entry of the boot configuration, a worker with
its optional hard dependency and the outcome of its initialization hook. -/
structure WorkerDescriptor where
  worker : WorkerRecord
  depends_on : Option WorkerId
  init_succeeds : Bool

/-- Modelled from the spec: is the worker with this id registered and Ready. -/
def is_ready (reg : Registry) (id : WorkerId) : Bool :=
  reg.any (fun r => r.id = id ∧ r.health = Health.Ready)

/-- Modelled from the spec: steps 1 to 3 of the Boot Sequencer for one worker
(section 4.3). A worker whose registration fails is left out. -/
def boot_step (reg : Registry) (d : WorkerDescriptor) : Registry :=
  match register reg { d.worker with health := Health.Uninitialized } with
  | Except.error _ => reg
  | Except.ok registered =>
    let dependency_ready :=
      match d.depends_on with
      | none => true
      | some dep => is_ready registered dep
    let status :=
      if dependency_ready && d.init_succeeds then Health.Ready else Health.Failed
    match set_health registered d.worker.id status with
    | Except.error _ => registered
    | Except.ok updated => updated

/-- Modelled from the spec: the terminal state of the boot, Halted with zero
workers Ready, Ready with all workers Ready, Degraded otherwise. -/
def boot_state (reg : Registry) : BootState :=
  if reg.all (fun r => r.health ≠ Health.Ready) then BootState.Halted
  else if reg.all (fun r => r.health = Health.Ready) then BootState.Ready
  else BootState.Degraded

/-- Modelled from the spec: the registry with the boot state, `none` while the
boot has not completed. -/
structure System where
  registry : Registry
  boot : Option BootState

/-- Modelled from the spec: the Boot Sequencer of section 4.3. -/
def boot (descriptors : List WorkerDescriptor) : System :=
  let reg := descriptors.foldl boot_step []
  { registry := reg, boot := some (boot_state reg) }

/-- Modelled from the spec: a CommandResult reporting a dispatcher error. -/
def CommandResult.failure (e : CoreError) : CommandResult :=
  { success := false, lines := [], worker_id := none,
    error := some (match e with
      | CoreError.DuplicateWorkerId => "DuplicateWorkerId"
      | CoreError.InvalidHealthTransition => "InvalidHealthTransition"
      | CoreError.NoEligibleWorker => "NoEligibleWorker"
      | CoreError.SystemNotReady => "SystemNotReady") }

/-- Modelled from the spec: `dispatch` of section 4.4, steps 1 to 4; only the
first candidate is executed. -/
def dispatch (prefers : String → WorkerRecord → Bool) (sys : System) (cmd : Command) :
    CommandResult :=
  match sys.boot with
  | none => CommandResult.failure CoreError.SystemNotReady
  | some BootState.Halted => CommandResult.failure CoreError.SystemNotReady
  | some _ =>
    match resolve_records prefers sys.registry cmd.operation cmd.routing_hint with
    | [] => CommandResult.failure CoreError.NoEligibleWorker
    | w :: _ =>
      let o := w.execute cmd.operation cmd.arguments
      { success := o.success, lines := o.lines, worker_id := some w.id, error := o.error }

/-- Modelled from the spec: a worker output for lines printed by a source
function that returns nothing. -/
def WorkerOutput.printed (lines : List String) : WorkerOutput :=
  { success := true, lines := lines, error := none }

/-- Modelled from the spec: a worker output for a source function returning a
status, 0 meaning success. -/
def WorkerOutput.ofStatus (r : CResult) : WorkerOutput :=
  { success := r.status = 0, lines := r.out,
    error := if r.status = 0 then none else some "worker status" }

/-- Modelled from the spec: a failed worker output with its error detail. -/
def WorkerOutput.failed (detail : String) : WorkerOutput :=
  { success := false, lines := [], error := some detail }

/-- Modelled from the spec: the entry points of the correctness-first worker
(section 4.1), each one a function of `c_worker.c`. -/
def c_worker_execute : Operation → List String → WorkerOutput
  | Operation.List, [path] => WorkerOutput.printed (c_ls path)
  | Operation.ReadFile, [filename] => WorkerOutput.printed (c_cat filename)
  | Operation.CreateDir, [path] => WorkerOutput.ofStatus (c_mkdir path)
  | Operation.Remove, [path] => WorkerOutput.ofStatus (c_rm path)
  | Operation.Copy, [source, dest] => WorkerOutput.ofStatus (c_cp source dest)
  | Operation.Move, [source, dest] => WorkerOutput.ofStatus (c_mv source dest)
  | Operation.ChangeMode, [path, mode] => WorkerOutput.ofStatus (c_chmod path mode)
  | Operation.CreateFile, [filename] => WorkerOutput.ofStatus (c_touch filename)
  | Operation.Echo, [text] => WorkerOutput.printed (c_echo text)
  | Operation.PrintWorkingDirectory, [] => WorkerOutput.printed c_pwd
  | _, _ => WorkerOutput.failed "unsupported operation or malformed arguments"

/-- Modelled from the spec: the entry points of the performance worker (section
4.1), each one a function of `cpp_worker.cpp`. -/
def cpp_worker_execute : Operation → List String → WorkerOutput
  | Operation.Copy, [source, dest] => WorkerOutput.printed (cpp_fast_copy source dest)
  | Operation.BulkOperation, files =>
    match cpp_bulk_operations files files.length with
    | some run => WorkerOutput.printed run.out
    | none => WorkerOutput.failed "unsupported operation or malformed arguments"
  | Operation.List, [path] => WorkerOutput.printed (cpp_performance_ls path)
  | Operation.SystemInfo, [] => WorkerOutput.printed cpp_system_info
  | Operation.Find, [pattern, directory] =>
    WorkerOutput.printed (cpp_advanced_find pattern directory)
  | _, _ => WorkerOutput.failed "unsupported operation or malformed arguments"

/-- Modelled from the spec: the correctness-first worker, with the id
"posix-core" of section 3 and the priority 1 of the worked example of section
4.4 on every operation it supports. -/
def correctness_worker : WorkerRecord :=
  { id := "posix-core",
    capabilities :=
      [ Operation.List, Operation.ReadFile, Operation.CreateDir, Operation.Remove,
        Operation.Copy, Operation.Move, Operation.ChangeMode, Operation.CreateFile,
        Operation.Echo, Operation.PrintWorkingDirectory ].map
        (fun op => { operation := op, priority := 1 }),
    health := Health.Uninitialized,
    execute := c_worker_execute }

/-- Modelled from the spec: the performance worker, with the id "perf-core" of
section 3 and the priority 5 of the worked example of section 4.4 on every
operation it supports. -/
def performance_worker : WorkerRecord :=
  { id := "perf-core",
    capabilities :=
      [ Operation.Copy, Operation.BulkOperation, Operation.List, Operation.SystemInfo,
        Operation.Find ].map (fun op => { operation := op, priority := 5 }),
    health := Health.Uninitialized,
    execute := cpp_worker_execute }

/-- Modelled from the spec: the boot sequence of the concrete scenario of
section 8, the correctness-first worker without dependency and the performance
worker depending on it, both initializing successfully. -/
def scenario_boot : System :=
  boot [ { worker := correctness_worker, depends_on := none, init_succeeds := true },
         { worker := performance_worker, depends_on := some "posix-core",
           init_succeeds := true } ]

/-- Modelled from the spec: the command `dispatch(Copy, ["a.txt","b.txt"])` of
the concrete scenario of section 8, without routing hint. -/
def scenario_copy : Command :=
  { operation := Operation.Copy, arguments := ["a.txt", "b.txt"], routing_hint := none }

/-! ## Vocabulary of the properties -/

/-- The line `line` begins with the text `pre`. -/
def BeginsWith (pre line : String) : Prop :=
  pre.toList <+: line.toList

/-- The texts `parts` occur in `line` verbatim, without overlap, in the order
given. -/
def OccurInOrder : List String → List Char → Prop
  | [], _ => True
  | part :: parts, line =>
    ∃ before after, line = before ++ part.toList ++ after ∧ OccurInOrder parts after

/-- The string holds no line feed. -/
def NoLineFeed (s : String) : Prop :=
  ∀ c ∈ s.toList, c.toNat ≠ 10

instance (s : String) : Decidable (NoLineFeed s) := by
  unfold NoLineFeed
  infer_instance

/-- The text `pattern` is a contiguous substring of `text`. -/
def Contains (text pattern : String) : Prop :=
  pattern.toList <:+: text.toList

instance (text pattern : String) : Decidable (Contains text pattern) :=
  inferInstanceAs (Decidable (pattern.toList <:+: text.toList))

/-- The two lines `c_cat` prints for a readme file. -/
def welcome_lines : List String :=
  ["Welcome to AlteronOS", "Built with C, Rust, Go, C++, Python"]

/-- The three lines `c_cat` prints for a version file. -/
def version_lines : List String :=
  ["AlteronOS v2.0", "Kernel: Python Manager", "FS: AOSFS"]

/-- The eight entries of `cpp_performance_ls` in ascending order. -/
def ls_sorted : List String :=
  [ "Config.dir/", "Programs.dir/", "System.dir/", "Users.dir/",
    "app.exe", "installer.dmg", "program.deb", "script.sh" ]


/-- Strict form of the sort key of `resolve`: `a` has the higher priority, or
the same priority and the smaller WorkerId. -/
def strictly_before (op : Operation) (a b : WorkerRecord) : Prop :=
  rank op b < rank op a ∨ (rank op a = rank op b ∧ string_lt a.id b.id = true)

instance (op : Operation) : DecidableRel (strictly_before op) := by
  intro a b
  unfold strictly_before
  infer_instance

/-- The WorkerIds of a registry are unique (invariant of section 3). -/
def UniqueIds (reg : Registry) : Prop :=
  (reg.map (fun w => w.id)).Nodup

instance (reg : Registry) : Decidable (UniqueIds reg) := by
  unfold UniqueIds
  infer_instance

/-- A registry with two Ready workers of equal priority for List, the
performance worker having the greater WorkerId. -/
def hint_registry : Registry :=
  [ { id := "c-worker", capabilities := [{ operation := Operation.List, priority := 3 }],
      health := Health.Ready, execute := c_worker_execute },
    { id := "cpp-worker", capabilities := [{ operation := Operation.List, priority := 3 }],
      health := Health.Ready, execute := cpp_worker_execute } ]

/-- A hint matching in which the class "performance" names the worker
"cpp-worker". -/
def prefers_performance (hint : String) (w : WorkerRecord) : Bool :=
  hint = "performance" ∧ w.id = "cpp-worker"

/-- A registry in which the performance worker is Failed and the
correctness-first worker is Ready. -/
def degraded_registry : Registry :=
  [ { correctness_worker with health := Health.Ready },
    { performance_worker with health := Health.Failed } ]

/-- Hooks that return at once and change nothing. -/
def idle_hooks : Hooks :=
  { rust_kernel_init := fun m => some m,
    cpp_kext_init := fun m => some m,
    go_kext_init := fun m => some m }

/-- The stores to `vga_buffer` among the events, as (index, value) pairs. -/
def writes : List Event → List (Nat × Nat)
  | [] => []
  | Event.write i v :: rest => (i, v) :: writes rest
  | _ :: rest => writes rest

/-- The hook calls among the events. -/
def calls : List Event → List Hook
  | [] => []
  | Event.call h :: rest => h :: calls rest
  | _ :: rest => calls rest

/-- The event is a store to `vga_buffer`. -/
def Event.isWrite : Event → Bool
  | Event.write _ _ => true
  | _ => false

/-- The stores of the clearing loop: cells 0 to 1999 in order, each set to
`0x0720`. -/
def clear_writes : List (Nat × Nat) :=
  (List.range 2000).map (fun i => (i, 0x0720))

/-- The bytes of the four messages in the order of the `print` calls. -/
def message_bytes : List Nat :=
  msg_banner ++ msg_rust ++ msg_kext ++ msg_python

/-- The stores `print` makes for `bytes` starting at cell `start`. -/
def cells_from (start : Nat) : List Nat → List (Nat × Nat)
  | [] => []
  | b :: rest => (start, vga_cell b) :: cells_from (start + 1) rest

/-- The store events for a list of (index, value) pairs. -/
def write_events (cells : List (Nat × Nat)) : List Event :=
  cells.map (fun p => Event.write p.1 p.2)

/-- The events of the clearing loop. -/
def clear_events : List Event :=
  (List.range 2000).map (fun i => Event.write i 0x0720)

/-- The display shows `bytes` on a cleared screen: the stores so far are those
of the clearing loop followed by one store per byte from cell 0 on, `cursor`
stands behind the last byte, and every cell holds the cell value of its byte,
`0x0720` behind the text up to cell 1999, and its initial content `vga0` from
cell 2000 on. -/
def Shows (vga0 : Nat → Nat) (bytes : List Nat) (x : Exec) : Prop :=
  writes x.log = clear_writes ++ cells_from 0 bytes
    ∧ x.machine.cursor = bytes.length
    ∧ ∀ j, x.machine.vga j =
        if j < bytes.length then vga_cell (bytes.getD j 0)
        else if j < 2000 then 0x0720 else vga0 j

/-- The text of the four messages in the order of the `print` calls. -/
def message_text : String :=
  "AlteronOS Kernel v2.0\nInitializing Rust components...\nLoading kernel extensions...\nStarting Python kernel manager..."

/-- The hook leaves the display alone: `vga_buffer` and `cursor` are the same
at the return as at the call. -/
def KeepsDisplay (hook : Machine → Option Machine) : Prop :=
  ∀ m m', hook m = some m' → m'.vga = m.vga ∧ m'.cursor = m.cursor

/-- The hook returns from every state. -/
def Returns (hook : Machine → Option Machine) : Prop :=
  ∀ m, (hook m).isSome = true


/-! ## Substring search -/

theorem findFrom_isSome_iff (haystack needle : List Char) :
    (findFrom haystack needle).isSome = true ↔ needle <:+: haystack := by
  induction haystack with
  | nil =>
    cases needle with
    | nil => simp [findFrom]
    | cons a l => simp [findFrom, List.isPrefixOf]
  | cons c rest ih =>
    unfold findFrom
    by_cases h : needle.isPrefixOf (c :: rest) = true
    · rw [if_pos h]
      have hp : needle <+: c :: rest := List.isPrefixOf_iff_prefix.mp h
      simp [hp.isInfix]
    · rw [if_neg h]
      have hp : ¬ needle <+: c :: rest := fun hp => h (List.isPrefixOf_iff_prefix.mpr hp)
      have hm : (Option.map (fun x => x + 1) (findFrom rest needle)).isSome
          = (findFrom rest needle).isSome := by
        cases findFrom rest needle <;> rfl
      rw [hm, ih, List.infix_cons_iff]
      simp [hp]

theorem strstr_isSome_iff (haystack needle : String) :
    (strstr haystack needle).isSome = true ↔ Contains haystack needle :=
  findFrom_isSome_iff _ _

theorem std_string_find_isSome_iff (file pattern : String) :
    (std_string_find file pattern).isSome = true ↔ Contains file pattern :=
  findFrom_isSome_iff _ _

theorem find_loop_eq_filter (pattern : String) (files : List String) :
    find_loop pattern files =
      (files.filter (fun file => decide (Contains file pattern))).map (fun file => "  " ++ file) := by
  induction files with
  | nil => rfl
  | cons file rest ih =>
    unfold find_loop
    by_cases h : (std_string_find file pattern).isSome = true
    · have hc : Contains file pattern := (std_string_find_isSome_iff _ _).mp h
      rw [if_pos h, ih]
      simp [List.filter_cons, hc]
    · have hc : ¬ Contains file pattern := fun hc => h ((std_string_find_isSome_iff _ _).mpr hc)
      rw [if_neg h, ih]
      simp [List.filter_cons, hc]

/-! ## The order of `std::string` -/

theorem char_toNat_injective {a b : Char} (h : a.toNat = b.toNat) : a = b := by
  rw [← Char.ofNat_toNat a, ← Char.ofNat_toNat b, h]

theorem lex_lt_irrefl (a : List Char) : lex_lt a a = false := by
  induction a with
  | nil => rfl
  | cons c rest ih => simp [lex_lt, ih]

theorem lex_lt_trans : ∀ (a b c : List Char),
    lex_lt a b = true → lex_lt b c = true → lex_lt a c = true
  | _, [], _, hab, _ => by simp [lex_lt] at hab
  | _, _ :: _, [], _, hbc => by simp [lex_lt] at hbc
  | [], _ :: _, _ :: _, _, _ => by simp [lex_lt]
  | x :: xs, y :: ys, z :: zs, hab, hbc => by
    simp only [lex_lt] at hab hbc ⊢
    split_ifs at hab hbc ⊢ <;> first
      | rfl
      | omega
      | exact lex_lt_trans xs ys zs hab hbc

theorem lex_lt_connected : ∀ (a b : List Char),
    lex_lt a b = false → lex_lt b a = false → a = b
  | [], [], _, _ => rfl
  | [], _ :: _, hab, _ => by simp [lex_lt] at hab
  | _ :: _, [], _, hba => by simp [lex_lt] at hba
  | x :: xs, y :: ys, hab, hba => by
    simp only [lex_lt] at hab hba
    split_ifs at hab hba
    all_goals first
      | omega
      | (have hxy : x = y := char_toNat_injective (by omega)
         rw [hxy, lex_lt_connected xs ys hab hba])

theorem string_lt_irrefl (a : String) : string_lt a a = false :=
  lex_lt_irrefl _

theorem string_lt_trans {a b c : String}
    (hab : string_lt a b = true) (hbc : string_lt b c = true) : string_lt a c = true :=
  lex_lt_trans _ _ _ hab hbc

theorem string_lt_connected {a b : String}
    (hab : string_lt a b = false) (hba : string_lt b a = false) : a = b :=
  String.ext (lex_lt_connected _ _ hab hba)

theorem string_lt_asymm {a b : String}
    (hab : string_lt a b = true) : string_lt b a = false := by
  cases hba : string_lt b a with
  | false => rfl
  | true =>
    have := string_lt_trans hab hba
    rw [string_lt_irrefl] at this
    cases this

/-- The ascending arrangement of a list of strings is unique, so every
sorting procedure returns the list `std_sort` returns. -/
theorem ascending_unique {l₁ l₂ : List String} (hp : l₁.Perm l₂)
    (h₁ : l₁.Pairwise (fun a b => string_lt a b = true))
    (h₂ : l₂.Pairwise (fun a b => string_lt a b = true)) : l₁ = l₂ := by
  haveI : IsAntisymm String (fun a b => string_lt a b = true) :=
    ⟨fun a b hab hba => by rw [string_lt_asymm hab] at hba; cases hba⟩
  exact List.eq_of_perm_of_sorted hp h₁ h₂

/-! ## Standard output -/

theorem join_foldl (acc : String) (l : List String) :
    List.foldl (fun r s => r ++ s) acc l = acc ++ List.foldl (fun r s => r ++ s) "" l := by
  induction l generalizing acc with
  | nil => simp
  | cons a rest ih =>
    rw [List.foldl_cons, ih, List.foldl_cons, ih ("" ++ a)]
    simp [String.append_assoc]

theorem stdout_text_cons (line : String) (rest : List String) :
    stdout_text (line :: rest) = line ++ "\n" ++ stdout_text rest := by
  unfold stdout_text String.join
  rw [List.map_cons, List.foldl_cons, join_foldl]
  simp

theorem stdout_text_single (line : String) : stdout_text [line] = line ++ "\n" := by
  rw [stdout_text_cons]
  simp [stdout_text, String.join]

theorem stdout_text_c_cp (source dest : String) :
    stdout_text (c_cp source dest).out = "C: Copying " ++ source ++ " to " ++ dest ++ "\n" := by
  simp [stdout_text, c_cp, String.join]

theorem stdout_text_cpp_fast_copy (source dest : String) :
    stdout_text (cpp_fast_copy source dest)
      = "C++: High-performance copy " ++ source ++ " -> " ++ dest ++ "\n" := by
  simp [stdout_text, cpp_fast_copy, String.join]

theorem lines_of_line (line rest : List Char) (h : ∀ c ∈ line, c.toNat ≠ 10) :
    lines_of (line ++ line_feed :: rest) = line :: lines_of rest := by
  induction line with
  | nil =>
    have hlf : line_feed.toNat = 10 := by decide
    simp [lines_of, hlf]
  | cons c l ih =>
    have hc : c.toNat ≠ 10 := h c (List.mem_cons_self _ _)
    have hl := ih (fun d hd => h d (List.mem_cons_of_mem _ hd))
    simp [lines_of, hc, hl]

theorem stdout_lines_cons (line : String) (rest : List String) (h : NoLineFeed line) :
    stdout_lines (line :: rest) = line :: stdout_lines rest := by
  unfold stdout_lines
  rw [stdout_text_cons]
  have hlist : (line ++ "\n" ++ stdout_text rest).toList
      = line.toList ++ line_feed :: (stdout_text rest).toList := by
    have h1 : (line ++ "\n" ++ stdout_text rest).toList
        = (line.toList ++ "\n".toList) ++ (stdout_text rest).toList := by
      simp only [String.toList, String.data_append]
    have h2 : "\n".toList = [line_feed] := by decide
    rw [h1, h2, List.append_assoc]
    rfl
  rw [hlist, lines_of_line _ _ h]
  rfl

theorem stdout_lines_eq_self (writes : List String) (h : ∀ w ∈ writes, NoLineFeed w) :
    stdout_lines writes = writes := by
  induction writes with
  | nil => rfl
  | cons w rest ih =>
    rw [stdout_lines_cons w rest (h w (List.mem_cons_self _ _)),
      ih (fun v hv => h v (List.mem_cons_of_mem _ hv))]

theorem no_line_feed_append {a b : String} (ha : NoLineFeed a) (hb : NoLineFeed b) :
    NoLineFeed (a ++ b) := by
  intro c hc
  have : (a ++ b).toList = a.toList ++ b.toList := String.data_append a b
  rw [this, List.mem_append] at hc
  rcases hc with h | h
  · exact ha c h
  · exact hb c h

theorem ite_no_line_feed (p : Prop) [Decidable p] (a b : Char)
    (ha : a.toNat ≠ 10) (hb : b.toNat ≠ 10) : (if p then a else b).toNat ≠ 10 := by
  split <;> assumption

theorem digitChar_no_line_feed (n : Nat) : (Nat.digitChar n).toNat ≠ 10 := by
  unfold Nat.digitChar
  repeat' apply ite_no_line_feed
  all_goals decide

theorem toDigitsCore_no_line_feed (base : Nat) : ∀ (fuel n : Nat) (ds : List Char),
    (∀ c ∈ ds, c.toNat ≠ 10) → ∀ c ∈ Nat.toDigitsCore base fuel n ds, c.toNat ≠ 10
  | 0, _, ds, h => by simpa [Nat.toDigitsCore] using h
  | fuel + 1, n, ds, h => by
    have hd : ∀ c ∈ Nat.digitChar (n % base) :: ds, c.toNat ≠ 10 := by
      intro c hc
      rcases List.mem_cons.mp hc with rfl | hc
      · exact digitChar_no_line_feed _
      · exact h c hc
    unfold Nat.toDigitsCore
    simp only
    split_ifs
    · exact hd
    · exact toDigitsCore_no_line_feed base fuel _ _ hd

theorem no_line_feed_nat (n : Nat) : NoLineFeed (toString n) := by
  intro c hc
  exact toDigitsCore_no_line_feed 10 (n + 1) n [] (by simp) c hc

theorem no_line_feed_int (n : Int) : NoLineFeed (toString n) := by
  cases n with
  | ofNat m => exact no_line_feed_nat m
  | negSucc m => exact no_line_feed_append (by decide) (no_line_feed_nat (m + 1))

/-! ## The performance worker -/

/-- C4: for every path, `cpp_performance_ls` writes the header line
"C++ Performance LS:" followed by exactly eight lines, the entries Config.dir/,
Programs.dir/, System.dir/, Users.dir/, app.exe, installer.dmg, program.deb,
script.sh in this order, each prefixed by two spaces. These eight are a
permutation of the eight items of the source, they ascend in the byte-wise
lexicographic order of `std::string`, they are the only ascending arrangement
of the items, and the output is the same for every path. -/
theorem cpp_performance_ls_sorted (path : String) :
    cpp_performance_ls path =
        "C++ Performance LS:" :: ls_sorted.map (fun item => "  " ++ item)
      ∧ (cpp_performance_ls path).tail.length = 8
      ∧ ls_sorted.Perm ls_items
      ∧ ls_sorted.Pairwise (fun a b => string_lt a b = true)
      ∧ (∀ arrangement : List String, arrangement.Perm ls_items →
          arrangement.Pairwise (fun a b => string_lt a b = true) → arrangement = ls_sorted)
      ∧ ∀ other : String, cpp_performance_ls other = cpp_performance_ls path := by
  have hperm : ls_sorted.Perm ls_items := by decide
  have hasc : ls_sorted.Pairwise (fun a b => string_lt a b = true) := by decide
  have hsort : std_sort ls_items = ls_sorted := by decide
  refine ⟨?_, ?_, hperm, hasc, ?_, fun _ => rfl⟩
  · unfold cpp_performance_ls
    rw [hsort]
  · unfold cpp_performance_ls
    rw [hsort]
    rfl
  intro arrangement hp ha
  exact ascending_unique (hp.trans hperm.symm) ha hasc

/-- C8: for every pattern and directory, the lines `cpp_advanced_find` writes
after its header are the entries of `all_files` that contain the pattern as a
contiguous substring (each indented by two spaces as the source prints them),
in the order of `all_files` and each once; the directory occurs only in the
header; the empty pattern yields all five entries. -/
theorem cpp_advanced_find_matches (pattern directory : String) :
    cpp_advanced_find pattern directory =
        ("C++ Find \x27" ++ pattern ++ "\x27 in " ++ directory ++ ":") ::
          (all_files.filter (fun file => decide (Contains file pattern))).map
            (fun file => "  " ++ file)
      ∧ (all_files.filter (fun file => decide (Contains file pattern))).Sublist all_files
      ∧ all_files.Nodup
      ∧ all_files.length = 5
      ∧ (∀ other : String,
          (cpp_advanced_find pattern other).tail = (cpp_advanced_find pattern directory).tail)
      ∧ (cpp_advanced_find "" directory).tail = all_files.map (fun file => "  " ++ file) := by
  refine ⟨?_, List.filter_sublist _, by decide, rfl, fun _ => rfl, ?_⟩
  · unfold cpp_advanced_find
    rw [find_loop_eq_filter]
  · have hall : find_loop "" all_files = all_files.map (fun file => "  " ++ file) := by
      decide
    exact hall

theorem bulk_loop_reads (files : List String) : ∀ (remaining i : Nat),
    i + remaining ≤ files.length →
    bulk_loop files i remaining =
      some { out := (List.range' i remaining).map
                      (fun k => "  [" ++ toString k ++ "] " ++ (files[k]?).getD ""),
             reads := List.range' i remaining }
  | 0, _, _ => rfl
  | remaining + 1, i, h => by
    have hi : i < files.length := by omega
    have hget : files[i]? = some files[i] := List.getElem?_eq_getElem hi
    unfold bulk_loop
    rw [hget, bulk_loop_reads files remaining (i + 1) (by omega)]
    simp [List.range'_succ, hget]

/-- C7 (as stated, refuted): with count = 1 and the single entry "x", line
feed, "y", `cpp_bulk_operations` puts three lines on standard output, the
header, "  [0] x" and "y", not count+1 = 2 lines, and no line is
"  [0] <files[0]>". -/
theorem cpp_bulk_line_feed_three_lines :
    (1 : Int) ≤ ((["x\ny"] : List String).length : Int)
      ∧ (cpp_bulk_operations ["x\ny"] 1).map (fun run => stdout_lines run.out)
          = some ["C++: Bulk processing 1 files:", "  [0] x", "y"]
      ∧ (cpp_bulk_operations ["x\ny"] 1).map (fun run => (stdout_lines run.out).length)
          ≠ some (1 + 1)
      ∧ (cpp_bulk_operations ["x\ny"] 1).map
          (fun run => decide (("  [0] " ++ "x\ny") ∈ stdout_lines run.out)) = some false := by
  refine ⟨by decide, by decide, by decide, by decide⟩

/-- C7 (amended): for every count and every files array holding at least count
entries, `cpp_bulk_operations` reads the entries at the indices 0 to count-1,
each once and in increasing order, and no other entry; it makes the write
"C++: Bulk processing <count> files:" followed by one write "  [i] <files[i]>"
per index, count+1 writes for count >= 0, each ended by a line feed. When none
of the entries read holds a line feed, these writes are the lines on standard
output, exactly count+1 lines for count >= 0. For count <= 0 it reads no entry
and the output is the header line alone. -/
theorem cpp_bulk_operations_lines (files : List String) (count : Int)
    (h : count ≤ (files.length : Int)) :
    ∃ run : BulkRun,
      cpp_bulk_operations files count = some run
      ∧ run.reads = List.range count.toNat
      ∧ run.out = ("C++: Bulk processing " ++ toString count ++ " files:") ::
          (List.range count.toNat).map
            (fun i => "  [" ++ toString i ++ "] " ++ (files[i]?).getD "")
      ∧ (0 ≤ count → (run.out.length : Int) = count + 1)
      ∧ ((∀ i, i < count.toNat → NoLineFeed ((files[i]?).getD "")) →
          stdout_lines run.out = run.out
            ∧ (0 ≤ count → ((stdout_lines run.out).length : Int) = count + 1))
      ∧ (count ≤ 0 →
          run.out = ["C++: Bulk processing " ++ toString count ++ " files:"]
            ∧ stdout_lines run.out = ["C++: Bulk processing " ++ toString count ++ " files:"]
            ∧ run.reads = []) := by
  have hlen : 0 + count.toNat ≤ files.length := by omega
  have hloop := bulk_loop_reads files count.toNat 0 hlen
  rw [← List.range_eq_range'] at hloop
  have hheader : NoLineFeed ("C++: Bulk processing " ++ toString count ++ " files:") :=
    no_line_feed_append (no_line_feed_append (by decide) (no_line_feed_int count)) (by decide)
  refine ⟨{ out := ("C++: Bulk processing " ++ toString count ++ " files:") ::
                (List.range count.toNat).map
                  (fun i => "  [" ++ toString i ++ "] " ++ (files[i]?).getD ""),
             reads := List.range count.toNat }, ?_, rfl, rfl, ?_, ?_, ?_⟩
  · unfold cpp_bulk_operations
    rw [hloop]
  · intro h0
    simp only [List.length_cons, List.length_map, List.length_range]
    omega
  · intro hfiles
    have hself : stdout_lines
        (("C++: Bulk processing " ++ toString count ++ " files:") ::
          (List.range count.toNat).map
            (fun i => "  [" ++ toString i ++ "] " ++ (files[i]?).getD ""))
        = ("C++: Bulk processing " ++ toString count ++ " files:") ::
          (List.range count.toNat).map
            (fun i => "  [" ++ toString i ++ "] " ++ (files[i]?).getD "") := by
      apply stdout_lines_eq_self
      intro w hw
      rcases List.mem_cons.mp hw with rfl | hw
      · exact hheader
      · obtain ⟨i, hi, rfl⟩ := List.mem_map.mp hw
        exact no_line_feed_append
          (no_line_feed_append (no_line_feed_append (by decide) (no_line_feed_nat i))
            (by decide))
          (hfiles i (List.mem_range.mp hi))
    refine ⟨hself, ?_⟩
    intro h0
    rw [hself]
    simp only [List.length_cons, List.length_map, List.length_range]
    omega
  · intro h0
    have hz : count.toNat = 0 := by omega
    refine ⟨by simp [hz], ?_, by simp [hz]⟩
    simp only [hz, List.range_zero, List.map_nil]
    exact stdout_lines_eq_self _ (by
      intro w hw
      rw [List.mem_singleton] at hw
      rw [hw]
      exact hheader)

theorem cpp_bulk_operations_lines_witness :
    ∃ run : BulkRun,
      cpp_bulk_operations ["a.txt", "b.txt", "c.txt"] 2 = some run
      ∧ run.reads = List.range (2 : Int).toNat
      ∧ run.out = ("C++: Bulk processing " ++ toString (2 : Int) ++ " files:") ::
          (List.range (2 : Int).toNat).map
            (fun i => "  [" ++ toString i ++ "] " ++ (["a.txt", "b.txt", "c.txt"][i]?).getD "")
      ∧ (0 ≤ (2 : Int) → (run.out.length : Int) = 2 + 1)
      ∧ ((∀ i, i < (2 : Int).toNat → NoLineFeed ((["a.txt", "b.txt", "c.txt"][i]?).getD "")) →
          stdout_lines run.out = run.out
            ∧ (0 ≤ (2 : Int) → ((stdout_lines run.out).length : Int) = 2 + 1))
      ∧ ((2 : Int) ≤ 0 →
          run.out = ["C++: Bulk processing " ++ toString (2 : Int) ++ " files:"]
            ∧ stdout_lines run.out
                = ["C++: Bulk processing " ++ toString (2 : Int) ++ " files:"]
            ∧ run.reads = []) :=
  cpp_bulk_operations_lines ["a.txt", "b.txt", "c.txt"] 2 (by decide)

/-! ## The correctness-first worker -/

theorem c_cat_writes (filename : String) :
    c_cat filename =
      (if Contains filename "readme" then welcome_lines
       else if Contains filename "version" then version_lines
       else ["File content: " ++ filename]) := by
  unfold c_cat
  by_cases hr : Contains filename "readme"
  · rw [if_pos ((strstr_isSome_iff _ _).mpr hr), if_pos hr]
    rfl
  · have hr' : ¬ (strstr filename "readme").isSome = true :=
      fun h => hr ((strstr_isSome_iff _ _).mp h)
    rw [if_neg hr', if_neg hr]
    by_cases hv : Contains filename "version"
    · rw [if_pos ((strstr_isSome_iff _ _).mpr hv), if_pos hv]
      rfl
    · have hv' : ¬ (strstr filename "version").isSome = true :=
        fun h => hv ((strstr_isSome_iff _ _).mp h)
      rw [if_neg hv', if_neg hv]

/-- C9 (as stated, refuted): the filename "a", line feed, "b" contains neither
"readme" nor "version", and `c_cat` puts two lines on standard output for it,
"File content: a" and "b", not the single line "File content: " followed by
the filename. -/
theorem c_cat_line_feed_two_lines :
    ¬ Contains "a\nb" "readme"
      ∧ ¬ Contains "a\nb" "version"
      ∧ stdout_lines (c_cat "a\nb") = ["File content: a", "b"]
      ∧ stdout_lines (c_cat "a\nb") ≠ ["File content: " ++ "a\nb"] := by
  refine ⟨by decide, by decide, by decide, by decide⟩

/-- C9 (amended): for every filename `c_cat` produces one of three outputs: the
two welcome lines when the filename contains "readme"; otherwise the three
version lines when it contains "version"; otherwise the text "File content: "
followed by the filename and a line feed, which is the single line
"File content: <filename>" when the filename holds no line feed. A filename
containing both "readme" and "version" yields the welcome lines. -/
theorem c_cat_branches (filename : String) :
    c_cat filename =
        (if Contains filename "readme" then welcome_lines
         else if Contains filename "version" then version_lines
         else ["File content: " ++ filename])
      ∧ (Contains filename "readme" → stdout_lines (c_cat filename) = welcome_lines)
      ∧ (¬ Contains filename "readme" → Contains filename "version" →
          stdout_lines (c_cat filename) = version_lines)
      ∧ (¬ Contains filename "readme" → ¬ Contains filename "version" →
          stdout_text (c_cat filename) = "File content: " ++ filename ++ "\n"
            ∧ (NoLineFeed filename →
                stdout_lines (c_cat filename) = ["File content: " ++ filename]))
      ∧ (Contains filename "readme" → Contains filename "version" →
          stdout_lines (c_cat filename) = welcome_lines)
      ∧ welcome_lines = ["Welcome to AlteronOS", "Built with C, Rust, Go, C++, Python"]
      ∧ version_lines = ["AlteronOS v2.0", "Kernel: Python Manager", "FS: AOSFS"] := by
  have hmain := c_cat_writes filename
  have hwelcome : stdout_lines welcome_lines = welcome_lines := by decide
  have hversion : stdout_lines version_lines = version_lines := by decide
  refine ⟨hmain, ?_, ?_, ?_, ?_, rfl, rfl⟩
  · intro hr
    rw [hmain, if_pos hr, hwelcome]
  · intro hr hv
    rw [hmain, if_neg hr, if_pos hv, hversion]
  · intro hr hv
    rw [hmain, if_neg hr, if_neg hv]
    refine ⟨stdout_text_single _, ?_⟩
    intro hf
    exact stdout_lines_eq_self _ (by
      intro w hw
      rw [List.mem_singleton] at hw
      rw [hw]
      exact no_line_feed_append (by decide) hf)
  · intro hr _
    rw [hmain, if_pos hr, hwelcome]

theorem c_cat_branches_witness :
    stdout_lines (c_cat "notes.txt") = ["File content: " ++ "notes.txt"] :=
  ((c_cat_branches "notes.txt").2.2.2.1 (by decide) (by decide)).2 (by decide)

theorem begins_with_append {pre mid : String} (rest : String)
    (h : pre.toList <+: mid.toList) : BeginsWith pre (mid ++ rest) := by
  unfold BeginsWith
  have : (mid ++ rest).toList = mid.toList ++ rest.toList := String.data_append mid rest
  rw [this]
  exact h.trans (List.prefix_append _ _)

theorem occur_one (pre arg : String) : OccurInOrder [arg] (pre ++ arg).toList :=
  ⟨pre.toList, [], by
    have : (pre ++ arg).toList = pre.toList ++ arg.toList := String.data_append pre arg
    rw [this, List.append_nil], trivial⟩

theorem occur_two (pre a mid b : String) :
    OccurInOrder [a, b] (pre ++ a ++ mid ++ b).toList :=
  ⟨pre.toList, mid.toList ++ b.toList, by
    have : (pre ++ a ++ mid ++ b).toList = ((pre.toList ++ a.toList) ++ mid.toList) ++ b.toList := by
      simp only [String.toList, String.data_append]
    rw [this, List.append_assoc],
   mid.toList, [], by rw [List.append_nil], trivial⟩

theorem stdout_lines_single {text : String} (h : NoLineFeed text) :
    stdout_lines [text] = [text] :=
  stdout_lines_eq_self _ (by
    intro w hw
    rw [List.mem_singleton] at hw
    rw [hw]
    exact h)

/-- C5 (as stated, refuted): for the argument "a", line feed, "b", `c_mkdir`
returns 0 but puts two lines on standard output, "C: Creating directory: a"
and "b", and neither line contains the argument. -/
theorem c_mkdir_line_feed_two_lines :
    (c_mkdir "a\nb").status = 0
      ∧ stdout_text (c_mkdir "a\nb").out = "C: Creating directory: a\nb\n"
      ∧ stdout_lines (c_mkdir "a\nb").out = ["C: Creating directory: a", "b"]
      ∧ (stdout_lines (c_mkdir "a\nb").out).length ≠ 1
      ∧ ∀ line ∈ stdout_lines (c_mkdir "a\nb").out, ¬ Contains line "a\nb" := by
  refine ⟨by decide, by decide, by decide, by decide, by decide⟩

/-- C5 (amended): for every argument string (or pair of argument strings) each
of `c_mkdir`, `c_rm`, `c_cp`, `c_mv`, `c_chmod` and `c_touch` is defined (a
total function: it completes and raises nothing), returns the status 0, and
makes exactly one write, ended by a line feed, whose text begins with "C: " and
contains each argument verbatim in the order given. When no argument holds a
line feed, that write is exactly one line on standard output. -/
theorem c_worker_mutations_succeed (path source dest mode filename : String) :
    ((c_mkdir path).status = 0
        ∧ (c_mkdir path).out = ["C: Creating directory: " ++ path]
        ∧ stdout_text (c_mkdir path).out = "C: Creating directory: " ++ path ++ "\n"
        ∧ BeginsWith "C: " ("C: Creating directory: " ++ path)
        ∧ OccurInOrder [path] ("C: Creating directory: " ++ path).toList
        ∧ (NoLineFeed path →
            stdout_lines (c_mkdir path).out = ["C: Creating directory: " ++ path]))
      ∧ ((c_rm path).status = 0
        ∧ (c_rm path).out = ["C: Removing: " ++ path]
        ∧ stdout_text (c_rm path).out = "C: Removing: " ++ path ++ "\n"
        ∧ BeginsWith "C: " ("C: Removing: " ++ path)
        ∧ OccurInOrder [path] ("C: Removing: " ++ path).toList
        ∧ (NoLineFeed path →
            stdout_lines (c_rm path).out = ["C: Removing: " ++ path]))
      ∧ ((c_cp source dest).status = 0
        ∧ (c_cp source dest).out = ["C: Copying " ++ source ++ " to " ++ dest]
        ∧ stdout_text (c_cp source dest).out = "C: Copying " ++ source ++ " to " ++ dest ++ "\n"
        ∧ BeginsWith "C: " ("C: Copying " ++ source ++ " to " ++ dest)
        ∧ OccurInOrder [source, dest] ("C: Copying " ++ source ++ " to " ++ dest).toList
        ∧ (NoLineFeed source → NoLineFeed dest →
            stdout_lines (c_cp source dest).out = ["C: Copying " ++ source ++ " to " ++ dest]))
      ∧ ((c_mv source dest).status = 0
        ∧ (c_mv source dest).out = ["C: Moving " ++ source ++ " to " ++ dest]
        ∧ stdout_text (c_mv source dest).out = "C: Moving " ++ source ++ " to " ++ dest ++ "\n"
        ∧ BeginsWith "C: " ("C: Moving " ++ source ++ " to " ++ dest)
        ∧ OccurInOrder [source, dest] ("C: Moving " ++ source ++ " to " ++ dest).toList
        ∧ (NoLineFeed source → NoLineFeed dest →
            stdout_lines (c_mv source dest).out = ["C: Moving " ++ source ++ " to " ++ dest]))
      ∧ ((c_chmod path mode).status = 0
        ∧ (c_chmod path mode).out = ["C: Changing permissions of " ++ path ++ " to " ++ mode]
        ∧ stdout_text (c_chmod path mode).out = "C: Changing permissions of " ++ path ++ " to " ++ mode ++ "\n"
        ∧ BeginsWith "C: " ("C: Changing permissions of " ++ path ++ " to " ++ mode)
        ∧ OccurInOrder [path, mode] ("C: Changing permissions of " ++ path ++ " to " ++ mode).toList
        ∧ (NoLineFeed path → NoLineFeed mode →
            stdout_lines (c_chmod path mode).out = ["C: Changing permissions of " ++ path ++ " to " ++ mode]))
      ∧ ((c_touch filename).status = 0
        ∧ (c_touch filename).out = ["C: Creating file: " ++ filename]
        ∧ stdout_text (c_touch filename).out = "C: Creating file: " ++ filename ++ "\n"
        ∧ BeginsWith "C: " ("C: Creating file: " ++ filename)
        ∧ OccurInOrder [filename] ("C: Creating file: " ++ filename).toList
        ∧ (NoLineFeed filename →
            stdout_lines (c_touch filename).out = ["C: Creating file: " ++ filename])) := by
  refine ⟨⟨rfl, rfl, stdout_text_single _, ?_, occur_one _ _, ?_⟩,
    ⟨rfl, rfl, stdout_text_single _, ?_, occur_one _ _, ?_⟩,
    ⟨rfl, rfl, stdout_text_single _, ?_, occur_two _ _ _ _, ?_⟩,
    ⟨rfl, rfl, stdout_text_single _, ?_, occur_two _ _ _ _, ?_⟩,
    ⟨rfl, rfl, stdout_text_single _, ?_, occur_two _ _ _ _, ?_⟩,
    ⟨rfl, rfl, stdout_text_single _, ?_, occur_one _ _, ?_⟩⟩
  · exact begins_with_append _ (by decide)
  · intro h1
    exact stdout_lines_single (no_line_feed_append (by decide) h1)
  · exact begins_with_append _ (by decide)
  · intro h1
    exact stdout_lines_single (no_line_feed_append (by decide) h1)
  · exact begins_with_append _ (begins_with_append _ (begins_with_append _ (by decide)))
  · intro h1 h2
    exact stdout_lines_single (no_line_feed_append
      (no_line_feed_append (no_line_feed_append (by decide) h1) (by decide)) h2)
  · exact begins_with_append _ (begins_with_append _ (begins_with_append _ (by decide)))
  · intro h1 h2
    exact stdout_lines_single (no_line_feed_append
      (no_line_feed_append (no_line_feed_append (by decide) h1) (by decide)) h2)
  · exact begins_with_append _ (begins_with_append _ (begins_with_append _ (by decide)))
  · intro h1 h2
    exact stdout_lines_single (no_line_feed_append
      (no_line_feed_append (no_line_feed_append (by decide) h1) (by decide)) h2)
  · exact begins_with_append _ (by decide)
  · intro h1
    exact stdout_lines_single (no_line_feed_append (by decide) h1)

theorem c_worker_mutations_succeed_witness :
    stdout_lines (c_cp "a.txt" "b.txt").out = ["C: Copying " ++ "a.txt" ++ " to " ++ "b.txt"] :=
  (c_worker_mutations_succeed "docs" "a.txt" "b.txt" "755" "new.txt").2.2.1.2.2.2.2.2
    (by decide) (by decide)

/-! ## The kernel entry point -/

theorem writes_append (a b : List Event) : writes (a ++ b) = writes a ++ writes b := by
  induction a with
  | nil => rfl
  | cons e rest ih => cases e <;> simp [writes, ih]

theorem calls_append (a b : List Event) : calls (a ++ b) = calls a ++ calls b := by
  induction a with
  | nil => rfl
  | cons e rest ih => cases e <;> simp [calls, ih]

theorem cells_from_append (start : Nat) (a b : List Nat) :
    cells_from start (a ++ b) = cells_from start a ++ cells_from (start + a.length) b := by
  induction a generalizing start with
  | nil => simp [cells_from]
  | cons c rest ih =>
    rw [List.cons_append, cells_from, cells_from, ih, List.length_cons,
      show start + 1 + rest.length = start + (rest.length + 1) by omega]
    rfl

theorem cells_from_index (start : Nat) (bytes : List Nat) :
    ∀ p ∈ cells_from start bytes, start ≤ p.1 ∧ p.1 < start + bytes.length := by
  induction bytes generalizing start with
  | nil => simp [cells_from]
  | cons c rest ih =>
    intro p hp
    simp only [cells_from, List.mem_cons] at hp
    rcases hp with rfl | hp
    · simp
    · have := ih (start + 1) p hp
      simp only [List.length_cons]
      omega

theorem clear_loop_log : ∀ (remaining i : Nat) (x : Exec),
    (clear_loop remaining i x).log =
      x.log ++ (List.range' i remaining).map (fun j => Event.write j 0x0720)
  | 0, _, _ => by simp [clear_loop]
  | remaining + 1, i, x => by
    rw [clear_loop, clear_loop_log remaining (i + 1)]
    simp [Exec.store, List.range'_succ]

theorem clear_loop_cursor : ∀ (remaining i : Nat) (x : Exec),
    (clear_loop remaining i x).machine.cursor = x.machine.cursor
  | 0, _, _ => rfl
  | remaining + 1, i, x => by
    rw [clear_loop, clear_loop_cursor remaining (i + 1)]
    rfl

theorem clear_loop_vga : ∀ (remaining i : Nat) (x : Exec) (j : Nat),
    (clear_loop remaining i x).machine.vga j =
      if i ≤ j ∧ j < i + remaining then 0x0720 else x.machine.vga j
  | 0, i, x, j => by
    have : ¬ (i ≤ j ∧ j < i + 0) := by omega
    rw [if_neg this]
    rfl
  | remaining + 1, i, x, j => by
    rw [clear_loop, clear_loop_vga remaining (i + 1)]
    by_cases h1 : i + 1 ≤ j ∧ j < i + 1 + remaining
    · rw [if_pos h1, if_pos (by omega)]
    · rw [if_neg h1]
      by_cases h2 : j = i
      · subst h2
        rw [if_pos (by omega)]
        simp [Exec.store]
      · rw [if_neg (by omega)]
        simp [Exec.store, Function.update, h2]

theorem writes_write_events (l : List Nat) :
    writes (l.map (fun j => Event.write j 0x0720)) = l.map (fun j => (j, 0x0720)) := by
  induction l with
  | nil => rfl
  | cons a rest ih => simp [writes, ih]

theorem shows_clear (vga memory : Nat → Nat) :
    Shows vga [] (clear_loop (80 * 25) 0 { machine := entry_state vga memory, log := [] }) := by
  refine ⟨?_, ?_, ?_⟩
  · rw [clear_loop_log, ← List.range_eq_range']
    simp [writes_write_events, clear_writes, cells_from]
  · rw [clear_loop_cursor]
    rfl
  · intro j
    rw [clear_loop_vga]
    by_cases h : j < 2000
    · rw [if_pos (by omega)]
      simp [h]
    · rw [if_neg (by omega)]
      simp [h, entry_state]

theorem shows_print (vga0 : Nat → Nat) : ∀ (bs bytes : List Nat) (x : Exec),
    Shows vga0 bytes x → Shows vga0 (bytes ++ bs) (print bs x)
  | [], bytes, x, h => by simpa [print] using h
  | b :: rest, bytes, x, h => by
    obtain ⟨hw, hc, hv⟩ := h
    have hstep : Shows vga0 (bytes ++ [b])
        { (x.store x.machine.cursor (vga_cell b)) with
          machine := { (x.store x.machine.cursor (vga_cell b)).machine with
                       cursor := x.machine.cursor + 1 } } := by
      refine ⟨?_, ?_, ?_⟩
      · simp only [Exec.store, writes_append, hw, cells_from_append, hc]
        simp [writes, cells_from]
      · simp [hc]
      · intro j
        simp only [Exec.store, Function.update, hc]
        by_cases hj : j = bytes.length
        · subst hj
          simp [List.getD_eq_getElem?_getD]
        · simp only [hj, dite_false, eq_rec_constant, hv j, List.length_append,
            List.length_singleton]
          by_cases hlt : j < bytes.length
          · rw [if_pos hlt, if_pos (by omega)]
            simp [List.getD_eq_getElem?_getD, List.getElem?_append_left hlt]
          · have hlt' : ¬ j < bytes.length + 1 := by omega
            simp only [hlt, hlt', if_false]
    have := shows_print vga0 rest (bytes ++ [b]) _ hstep
    rw [List.append_assoc] at this
    exact this

theorem shows_after_hook {vga0 : Nat → Nat} {bytes : List Nat} {x : Exec}
    (h : Shows vga0 bytes x) (m : Machine) (extra : List Event)
    (hextra : writes extra = [])
    (hvga : m.vga = x.machine.vga) (hcur : m.cursor = x.machine.cursor) :
    Shows vga0 bytes { machine := m, log := x.log ++ extra } := by
  obtain ⟨hw, hc, hv⟩ := h
  refine ⟨?_, ?_, ?_⟩
  · simp [writes_append, hw, hextra]
  · simp [hcur, hc]
  · intro j
    simp [hvga, hv j]

theorem print_log : ∀ (bs : List Nat) (x : Exec),
    (print bs x).log = x.log ++ write_events (cells_from x.machine.cursor bs)
  | [], x => by simp [print, cells_from, write_events]
  | b :: rest, x => by
    rw [print, print_log rest]
    simp [Exec.store, cells_from, write_events]

theorem write_events_isWrite (cells : List (Nat × Nat)) :
    ∀ e ∈ write_events cells, e.isWrite = true := by
  intro e he
  simp only [write_events, List.mem_map] at he
  obtain ⟨p, _, rfl⟩ := he
  rfl

theorem calls_write_events (cells : List (Nat × Nat)) : calls (write_events cells) = [] := by
  induction cells with
  | nil => rfl
  | cons p rest ih => simpa [write_events, calls] using ih

theorem calls_clear_events : calls clear_events = [] := by
  unfold clear_events
  generalize List.range 2000 = l
  induction l with
  | nil => rfl
  | cons i rest ih => simpa [calls] using ih

theorem clear_loop_start (m : Machine) :
    (clear_loop (80 * 25) 0 { machine := m, log := [] }).log = clear_events := by
  rw [clear_loop_log, ← List.range_eq_range', List.nil_append]
  have h : 80 * 25 = 2000 := by norm_num
  rw [h, clear_events]

theorem kernel_main_reaches_halt (hooks : Hooks) (m : Machine)
    (hr : Returns hooks.rust_kernel_init) (hc : Returns hooks.cpp_kext_init)
    (hg : Returns hooks.go_kext_init) :
    (kernel_main hooks m).final.isSome = true := by
  obtain ⟨m2, h2⟩ := Option.isSome_iff_exists.mp
    (hr (print msg_rust (print msg_banner
      (clear_loop (80 * 25) 0 { machine := m, log := [] }))).machine)
  obtain ⟨m3, h3⟩ := Option.isSome_iff_exists.mp
    (hc (print msg_kext
      { machine := m2,
        log := (print msg_rust (print msg_banner
          (clear_loop (80 * 25) 0 { machine := m, log := [] }))).log
            ++ [Event.call Hook.rust_kernel_init] }).machine)
  obtain ⟨m4, h4⟩ := Option.isSome_iff_exists.mp (hg m3)
  simp only [kernel_main, h2, h3, h4]
  rfl

/-- C6: for every behaviour of the three hooks that returns, whatever state
each hook leaves behind, `kernel_main` first clears the screen, then calls
`rust_kernel_init`, `cpp_kext_init` and `go_kext_init` in this order, each
exactly once, with nothing but stores to the display in between, and then
enters the halt loop. -/
theorem kernel_main_calls_hooks_in_order (hooks : Hooks) (m : Machine)
    (hr : Returns hooks.rust_kernel_init) (hc : Returns hooks.cpp_kext_init)
    (hg : Returns hooks.go_kext_init) :
    ∃ w1 w2 w3 : List Event,
      (kernel_main hooks m).log =
          clear_events ++ w1 ++ [Event.call Hook.rust_kernel_init] ++ w2
            ++ [Event.call Hook.cpp_kext_init, Event.call Hook.go_kext_init] ++ w3
            ++ [Event.halt]
        ∧ (∀ e ∈ w1 ++ w2 ++ w3, e.isWrite = true)
        ∧ calls (kernel_main hooks m).log =
            [Hook.rust_kernel_init, Hook.cpp_kext_init, Hook.go_kext_init]
        ∧ (kernel_main hooks m).final.isSome = true := by
  obtain ⟨m2, h2⟩ := Option.isSome_iff_exists.mp
    (hr (print msg_rust (print msg_banner
      (clear_loop (80 * 25) 0 { machine := m, log := [] }))).machine)
  obtain ⟨m3, h3⟩ := Option.isSome_iff_exists.mp
    (hc (print msg_kext
      { machine := m2,
        log := (print msg_rust (print msg_banner
          (clear_loop (80 * 25) 0 { machine := m, log := [] }))).log
            ++ [Event.call Hook.rust_kernel_init] }).machine)
  obtain ⟨m4, h4⟩ := Option.isSome_iff_exists.mp (hg m3)
  have hk : kernel_main hooks m =
      { log := (print msg_python
          { machine := m4,
            log := (print msg_kext
              { machine := m2,
                log := (print msg_rust (print msg_banner
                  (clear_loop (80 * 25) 0 { machine := m, log := [] }))).log
                    ++ [Event.call Hook.rust_kernel_init] }).log
              ++ [Event.call Hook.cpp_kext_init, Event.call Hook.go_kext_init] }).log
          ++ [Event.halt],
        final := some (print msg_python
          { machine := m4,
            log := (print msg_kext
              { machine := m2,
                log := (print msg_rust (print msg_banner
                  (clear_loop (80 * 25) 0 { machine := m, log := [] }))).log
                    ++ [Event.call Hook.rust_kernel_init] }).log
              ++ [Event.call Hook.cpp_kext_init, Event.call Hook.go_kext_init] }).machine } := by
    simp only [kernel_main, h2, h3, h4]
  rw [hk]
  simp only [print_log, clear_loop_start]
  refine ⟨write_events (cells_from
        (clear_loop (80 * 25) 0 { machine := m, log := [] }).machine.cursor msg_banner)
      ++ write_events (cells_from
        (print msg_banner (clear_loop (80 * 25) 0 { machine := m, log := [] })).machine.cursor
        msg_rust),
    write_events (cells_from m2.cursor msg_kext),
    write_events (cells_from m4.cursor msg_python), ?_, ?_, ?_, rfl⟩
  · simp only [List.append_assoc]
  · intro e he
    simp only [List.mem_append] at he
    rcases he with ((he | he) | he) | he <;> exact write_events_isWrite _ e he
  · simp only [calls_append, calls_write_events, calls_clear_events, List.nil_append,
      List.append_nil]
    rfl

theorem kernel_main_calls_hooks_in_order_witness :
    ∃ w1 w2 w3 : List Event,
      (kernel_main ⟨fun m => some m, fun m => some m, fun m => some m⟩
          (entry_state (fun _ => 0) (fun _ => 0))).log =
          clear_events ++ w1 ++ [Event.call Hook.rust_kernel_init] ++ w2
            ++ [Event.call Hook.cpp_kext_init, Event.call Hook.go_kext_init] ++ w3
            ++ [Event.halt]
        ∧ (∀ e ∈ w1 ++ w2 ++ w3, e.isWrite = true)
        ∧ calls (kernel_main ⟨fun m => some m, fun m => some m, fun m => some m⟩
            (entry_state (fun _ => 0) (fun _ => 0))).log =
            [Hook.rust_kernel_init, Hook.cpp_kext_init, Hook.go_kext_init]
        ∧ (kernel_main ⟨fun m => some m, fun m => some m, fun m => some m⟩
            (entry_state (fun _ => 0) (fun _ => 0))).final.isSome = true :=
  kernel_main_calls_hooks_in_order ⟨fun m => some m, fun m => some m, fun m => some m⟩
    (entry_state (fun _ => 0) (fun _ => 0)) (fun _ => rfl) (fun _ => rfl) (fun _ => rfl)

theorem clear_writes_index : ∀ p ∈ clear_writes, p.1 < 2000 := by
  intro p hp
  simp only [clear_writes, List.mem_map, List.mem_range] at hp
  obtain ⟨i, hi, rfl⟩ := hp
  exact hi

theorem message_bytes_length : message_bytes.length = 116 := by decide

theorem message_bytes_ascii : ∀ b ∈ message_bytes, vga_cell b = 0x0700 ||| b := by decide

theorem writes_within_display {bytes : List Nat} {log : List Event}
    (hw : writes log = clear_writes ++ cells_from 0 bytes)
    (hp : bytes <+: message_bytes) :
    writes log <+: clear_writes ++ cells_from 0 message_bytes
      ∧ ∀ p ∈ writes log, p.1 < 2000 := by
  obtain ⟨t, ht⟩ := hp
  have hpre : writes log <+: clear_writes ++ cells_from 0 message_bytes := by
    rw [hw, ← ht, cells_from_append, ← List.append_assoc]
    exact List.prefix_append _ _
  refine ⟨hpre, ?_⟩
  intro p hp
  have hmem := hpre.subset hp
  rcases List.mem_append.mp hmem with h | h
  · exact clear_writes_index p h
  · have := cells_from_index 0 message_bytes p h
    rw [message_bytes_length] at this
    omega

theorem kernel_main_shows (hooks : Hooks) (vga memory : Nat → Nat)
    (kr : KeepsDisplay hooks.rust_kernel_init) (kc : KeepsDisplay hooks.cpp_kext_init)
    (kg : KeepsDisplay hooks.go_kext_init) :
    ∃ bytes : List Nat,
      bytes <+: message_bytes
        ∧ writes (kernel_main hooks (entry_state vga memory)).log
            = clear_writes ++ cells_from 0 bytes
        ∧ ∀ final, (kernel_main hooks (entry_state vga memory)).final = some final →
            bytes = message_bytes ∧ final.cursor = bytes.length
              ∧ ∀ j, final.vga j =
                  if j < bytes.length then vga_cell (bytes.getD j 0)
                  else if j < 2000 then 0x0720 else vga j := by
  have S1 := shows_print vga msg_rust _ _
    (shows_print vga msg_banner _ _ (shows_clear vga memory))
  rw [List.nil_append] at S1
  simp only [kernel_main]
  split
  · rename_i h2
    refine ⟨msg_banner ++ msg_rust, ⟨msg_kext ++ msg_python, ?_⟩, ?_, ?_⟩
    · simp [message_bytes]
    · simp only [writes_append, S1.1]
      simp [writes]
    · intro final hf
      cases hf
  · rename_i m2 h2
    obtain ⟨hv2, hc2⟩ := kr _ _ h2
    have S2 := shows_print vga msg_kext _ _
      (shows_after_hook S1 m2 [Event.call Hook.rust_kernel_init] rfl hv2 hc2)
    split
    · rename_i h3
      refine ⟨msg_banner ++ msg_rust ++ msg_kext, ⟨msg_python, ?_⟩, ?_, ?_⟩
      · simp [message_bytes]
      · simp only [writes_append, S2.1]
        simp [writes]
      · intro final hf
        cases hf
    · rename_i m3 h3
      obtain ⟨hv3, hc3⟩ := kc _ _ h3
      split
      · rename_i h4
        refine ⟨msg_banner ++ msg_rust ++ msg_kext, ⟨msg_python, ?_⟩, ?_, ?_⟩
        · simp [message_bytes]
        · simp only [writes_append, S2.1]
          simp [writes]
        · intro final hf
          cases hf
      · rename_i m4 h4
        obtain ⟨hv4, hc4⟩ := kg _ _ h4
        have S4 := shows_print vga msg_python _ _
          (shows_after_hook S2 m4
            [Event.call Hook.cpp_kext_init, Event.call Hook.go_kext_init] rfl
            (hv4.trans hv3) (hc4.trans hc3))
        refine ⟨message_bytes, ⟨[], ?_⟩, ?_, ?_⟩
        · simp [message_bytes]
        · simp only [writes_append, S4.1]
          simp [writes, message_bytes]
        · intro final hf
          cases hf
          exact ⟨rfl, S4.2.1, S4.2.2⟩

/-- C10: when the three hooks leave `vga_buffer` and `cursor` as they found
them, every store `kernel_main` makes to `vga_buffer` is at an index in
0..1999. The stores are, in order, those of the clearing loop (cells 0 to 1999
set to 0x0720) followed by those of the `print` calls, one cell per character
from cell 0 on in call order, because `cursor` persists across the calls; when
the hooks return, all four calls are made and write the 116 cells 0..115, each
cell being 0x0700 OR the character code (the line feed is stored as 0x070A in
cell 21), `cursor` ends at 116 and the cells 116..1999 still hold 0x0720. -/
theorem kernel_main_display (hooks : Hooks) (vga memory : Nat → Nat)
    (kr : KeepsDisplay hooks.rust_kernel_init) (kc : KeepsDisplay hooks.cpp_kext_init)
    (kg : KeepsDisplay hooks.go_kext_init) :
    writes (kernel_main hooks (entry_state vga memory)).log
        <+: clear_writes ++ cells_from 0 message_bytes
      ∧ (∀ p ∈ writes (kernel_main hooks (entry_state vga memory)).log, p.1 < 2000)
      ∧ (∀ final, (kernel_main hooks (entry_state vga memory)).final = some final →
          writes (kernel_main hooks (entry_state vga memory)).log
              = clear_writes ++ cells_from 0 message_bytes
            ∧ final.cursor = 116
            ∧ (∀ i, i < 116 → final.vga i = 0x0700 ||| message_bytes.getD i 0)
            ∧ (∀ i, 116 ≤ i → i < 2000 → final.vga i = 0x0720))
      ∧ (Returns hooks.rust_kernel_init → Returns hooks.cpp_kext_init →
          Returns hooks.go_kext_init →
          (kernel_main hooks (entry_state vga memory)).final.isSome = true)
      ∧ clear_writes = (List.range (80 * 25)).map (fun i => (i, 0x0720))
      ∧ cells_from 0 message_bytes
          = (List.range 116).map (fun i => (i, 0x0700 ||| message_bytes.getD i 0))
      ∧ message_bytes = c_string message_text
      ∧ cells_from 21 (c_string "\n") = [(21, 0x070A)]
      ∧ (21, 0x070A) ∈ cells_from 0 message_bytes := by
  have S1 := shows_print vga msg_rust _ _
    (shows_print vga msg_banner _ _ (shows_clear vga memory))
  obtain ⟨bytes, hpre, hw, hfinal⟩ := kernel_main_shows hooks vga memory kr kc kg
  obtain ⟨hstart, hbound⟩ := writes_within_display hw hpre
  refine ⟨hstart, hbound, ?_, ?_, ?_, by decide, by decide, by decide, by decide⟩
  · intro final hf
    obtain ⟨hb, hcur, hvga⟩ := hfinal final hf
    subst hb
    rw [message_bytes_length] at hcur hvga
    refine ⟨hw, hcur, ?_, ?_⟩
    · intro i hi
      rw [hvga i, if_pos hi]
      apply message_bytes_ascii
      rw [List.getD_eq_getElem _ _ (by rw [message_bytes_length]; exact hi)]
      exact List.getElem_mem _
    · intro i h1 h2
      rw [hvga i, if_neg (by omega), if_pos h2]
  · intro hr hc hg
    exact kernel_main_reaches_halt hooks (entry_state vga memory) hr hc hg
  · have h : 80 * 25 = 2000 := by norm_num
    rw [h, clear_writes]

theorem kernel_main_display_witness :
    writes (kernel_main idle_hooks (entry_state (fun _ => 0) (fun _ => 0))).log
      <+: clear_writes ++ cells_from 0 message_bytes :=
  (kernel_main_display idle_hooks (fun _ => 0) (fun _ => 0)
    (fun _ _ h => by cases h; exact ⟨rfl, rfl⟩)
    (fun _ _ h => by cases h; exact ⟨rfl, rfl⟩)
    (fun _ _ h => by cases h; exact ⟨rfl, rfl⟩)).1

/-! ## The registry -/

theorem string_le_trans {a b c : String}
    (hab : string_lt b a = false) (hbc : string_lt c b = false) : string_lt c a = false := by
  cases hca : string_lt c a with
  | false => rfl
  | true =>
    cases hba : string_lt a b with
    | true =>
      have := string_lt_trans hca hba
      rw [hbc] at this
      cases this
    | false =>
      have : a = b := string_lt_connected hba hab
      subst this
      rw [hbc] at hca
      cases hca

instance before_total (op : Operation) : IsTotal WorkerRecord (before op) where
  total a b := by
    unfold before
    rcases Nat.lt_trichotomy (rank op a) (rank op b) with h | h | h
    · exact Or.inr (Or.inl h)
    · rcases Bool.eq_false_or_eq_true (string_lt b.id a.id) with hba | hba
      · exact Or.inr (Or.inr ⟨h.symm, string_lt_asymm hba⟩)
      · exact Or.inl (Or.inr ⟨h, hba⟩)
    · exact Or.inl (Or.inl h)

instance before_trans (op : Operation) : IsTrans WorkerRecord (before op) where
  trans a b c hab hbc := by
    unfold before at *
    rcases hab with h1 | ⟨h1, s1⟩ <;> rcases hbc with h2 | ⟨h2, s2⟩
    · exact Or.inl (by omega)
    · exact Or.inl (by omega)
    · exact Or.inl (by omega)
    · exact Or.inr ⟨by omega, string_le_trans s1 s2⟩

theorem mem_eligible {reg : Registry} {op : Operation} {w : WorkerRecord} :
    w ∈ eligible reg op ↔
      w ∈ reg ∧ w.health = Health.Ready ∧ ∃ c ∈ w.capabilities, c.operation = op := by
  unfold eligible WorkerRecord.priorityFor
  rw [List.mem_filter]
  constructor
  · rintro ⟨hm, hd⟩
    have hd' := of_decide_eq_true hd
    refine ⟨hm, hd'.1, ?_⟩
    have hs := hd'.2
    rw [Option.isSome_map'] at hs
    obtain ⟨c, hc⟩ := Option.isSome_iff_exists.mp hs
    exact ⟨c, List.mem_of_find?_eq_some hc, by simpa using List.find?_some hc⟩
  · rintro ⟨hm, hr, c, hc, hop⟩
    refine ⟨hm, decide_eq_true ⟨hr, ?_⟩⟩
    rw [Option.isSome_map', List.find?_isSome]
    exact ⟨c, hc, by simpa using hop⟩

theorem sorted_eligible_pairwise (reg : Registry) (op : Operation) (hids : UniqueIds reg) :
    ((eligible reg op).insertionSort (before op)).Pairwise (strictly_before op) := by
  have hsorted : ((eligible reg op).insertionSort (before op)).Pairwise (before op) :=
    List.sorted_insertionSort (before op) (eligible reg op)
  have hsub : ((eligible reg op).insertionSort (before op)).Perm (eligible reg op) :=
    List.perm_insertionSort (before op) (eligible reg op)
  have hnodup_el : ((eligible reg op).map (fun w => w.id)).Nodup :=
    List.Nodup.sublist ((List.filter_sublist reg).map _) hids
  have hnodup : (((eligible reg op).insertionSort (before op)).map (fun w => w.id)).Nodup :=
    (hsub.map _).nodup_iff.mpr hnodup_el
  have hne : ((eligible reg op).insertionSort (before op)).Pairwise
      (fun a b => a.id ≠ b.id) := by
    have := List.pairwise_map.mp hnodup
    exact this
  refine (hsorted.and hne).imp ?_
  rintro a b ⟨hb, hn⟩
  unfold before at hb
  unfold strictly_before
  rcases hb with h | ⟨h, hs⟩
  · exact Or.inl h
  · refine Or.inr ⟨h, ?_⟩
    rcases Bool.eq_false_or_eq_true (string_lt a.id b.id) with hab | hab
    · exact hab
    · exact absurd (string_lt_connected hab hs) hn

theorem resolve_records_perm (prefers : String → WorkerRecord → Bool) (reg : Registry)
    (op : Operation) (hint : Option String) :
    (resolve_records prefers reg op hint).Perm (eligible reg op) := by
  have hsub : ((eligible reg op).insertionSort (before op)).Perm (eligible reg op) :=
    List.perm_insertionSort (before op) (eligible reg op)
  cases hint with
  | none => exact hsub
  | some h =>
    refine List.Perm.trans ?_ hsub
    simp only [resolve_records]
    exact List.filter_append_perm _ _

theorem mem_resolve_records {prefers : String → WorkerRecord → Bool} {reg : Registry}
    {op : Operation} {hint : Option String} {w : WorkerRecord} :
    w ∈ resolve_records prefers reg op hint ↔ w ∈ eligible reg op :=
  (resolve_records_perm prefers reg op hint).mem_iff

theorem register_unique_ids {reg reg' : Registry} {w : WorkerRecord}
    (hids : UniqueIds reg) (h : register reg w = Except.ok reg') : UniqueIds reg' := by
  unfold register at h
  split at h
  · cases h
  · rename_i hany
    cases h
    unfold UniqueIds at *
    rw [List.map_append, List.nodup_append]
    refine ⟨hids, by simp, ?_⟩
    intro a ha hb
    simp only [List.map_cons, List.map_nil, List.mem_singleton] at hb
    subst hb
    obtain ⟨r, hr, hrid⟩ := List.mem_map.mp ha
    exact hany (List.any_eq_true.mpr ⟨r, hr, by simpa using hrid⟩)

/-- C1 (as stated, refuted): in a registry with two Ready workers that declare
List with equal priority, `resolve` with the routing hint "performance" returns
the performance worker "cpp-worker" before "c-worker", which is not the order
priority descending then WorkerId ascending. -/
theorem resolve_hint_breaks_order :
    UniqueIds hint_registry
      ∧ 2 ≤ (eligible hint_registry Operation.List).length
      ∧ resolve prefers_performance hint_registry Operation.List (some "performance")
          = ["cpp-worker", "c-worker"]
      ∧ resolve prefers_performance hint_registry Operation.List none
          = ["c-worker", "cpp-worker"]
      ∧ ¬ (resolve_records prefers_performance hint_registry Operation.List
            (some "performance")).Pairwise (before Operation.List)
      ∧ ¬ (resolve_records prefers_performance hint_registry Operation.List
            (some "performance")).Pairwise (strictly_before Operation.List) := by
  refine ⟨by decide, by decide, by decide, by decide, by decide, by decide⟩

/-- C1 (amended): for every Operation, every routing hint and every registry
state with unique WorkerIds, `resolve` returns exactly the Ready workers that
declare a Capability for the Operation, each once. Without a routing hint they
are ordered strictly by priority descending and then WorkerId ascending; with a
routing hint the workers matching the hint come first and the others follow,
each of the two groups in that order. The result is a function of the registry
state and the arguments, so two calls return the same sequence. -/
theorem resolve_order (prefers : String → WorkerRecord → Bool) (reg : Registry)
    (op : Operation) (hint : Option String) (hids : UniqueIds reg) :
    resolve prefers reg op hint = (resolve_records prefers reg op hint).map (fun w => w.id)
      ∧ (resolve_records prefers reg op hint).Perm (eligible reg op)
      ∧ (∀ w, w ∈ eligible reg op ↔
          w ∈ reg ∧ w.health = Health.Ready ∧ ∃ c ∈ w.capabilities, c.operation = op)
      ∧ (resolve prefers reg op hint).Nodup
      ∧ (hint = none →
          (resolve_records prefers reg op hint).Pairwise (strictly_before op))
      ∧ (∀ h, hint = some h →
          ∃ first rest,
            resolve_records prefers reg op hint = first ++ rest
              ∧ (∀ w ∈ first, prefers h w = true)
              ∧ (∀ w ∈ rest, prefers h w = false)
              ∧ first.Pairwise (strictly_before op)
              ∧ rest.Pairwise (strictly_before op))
      ∧ (∀ first second : List WorkerId,
          first = resolve prefers reg op hint → second = resolve prefers reg op hint →
          first = second) := by
  have hperm := resolve_records_perm prefers reg op hint
  have hpair := sorted_eligible_pairwise reg op hids
  refine ⟨rfl, hperm, fun w => mem_eligible, ?_, ?_, ?_, ?_⟩
  · have hnodup_el : ((eligible reg op).map (fun w => w.id)).Nodup :=
      List.Nodup.sublist ((List.filter_sublist reg).map _) hids
    exact (hperm.map _).nodup_iff.mpr hnodup_el
  · intro hn
    subst hn
    exact hpair
  · intro h hh
    subst hh
    refine ⟨_, _, rfl, ?_, ?_, hpair.sublist (List.filter_sublist _),
      hpair.sublist (List.filter_sublist _)⟩
    · intro w hw
      exact (List.mem_filter.mp hw).2
    · intro w hw
      simpa using (List.mem_filter.mp hw).2
  · intro first second h1 h2
    rw [h1, h2]

theorem resolve_order_witness :
    resolve prefers_performance hint_registry Operation.List (some "performance")
        = (resolve_records prefers_performance hint_registry Operation.List
            (some "performance")).map (fun w => w.id)
      ∧ (resolve_records prefers_performance hint_registry Operation.List
          (some "performance")).Perm (eligible hint_registry Operation.List) :=
  ⟨(resolve_order prefers_performance hint_registry Operation.List (some "performance")
      (by decide)).1,
   (resolve_order prefers_performance hint_registry Operation.List (some "performance")
      (by decide)).2.1⟩

/-- C2: for every registry state, every Operation and every routing hint,
every worker in the sequence returned by `resolve` is a Ready record of the
registry, so a worker whose health is Failed does not appear in it, whatever
Capabilities it declared: no Failed record is among the resolved records, and
(WorkerIds being unique) the id of a Failed worker is not in the sequence. -/
theorem failed_worker_never_resolved (prefers : String → WorkerRecord → Bool)
    (reg : Registry) (op : Operation) (hint : Option String) :
    (∀ w ∈ resolve_records prefers reg op hint, w ∈ reg ∧ w.health = Health.Ready)
      ∧ (∀ w : WorkerRecord, w.health = Health.Failed →
          w ∉ resolve_records prefers reg op hint)
      ∧ (UniqueIds reg → ∀ w ∈ reg, w.health = Health.Failed →
          w.id ∉ resolve prefers reg op hint) := by
  have hready : ∀ w ∈ resolve_records prefers reg op hint,
      w ∈ reg ∧ w.health = Health.Ready := by
    intro w hw
    have hel := mem_eligible.mp (mem_resolve_records.mp hw)
    exact ⟨hel.1, hel.2.1⟩
  refine ⟨hready, ?_, ?_⟩
  · intro w hf hw
    have hr := (hready w hw).2
    rw [hf] at hr
    cases hr
  · intro hids w hw hf hmem
    obtain ⟨w', hw', hid⟩ := List.mem_map.mp hmem
    have hr := hready w' hw'
    have heq : w' = w := List.inj_on_of_nodup_map hids hr.1 hw hid
    rw [heq, hf] at hr
    cases hr.2

theorem failed_worker_never_resolved_witness :
    "perf-core" ∉ resolve prefers_performance degraded_registry Operation.Copy
      (some "performance") :=
  (failed_worker_never_resolved prefers_performance degraded_registry Operation.Copy
    (some "performance")).2.2 (by decide)
    { performance_worker with health := Health.Failed }
    (List.Mem.tail _ (List.Mem.head _)) rfl

/-- C3: after the boot of the correctness-first (C) worker and the performance
(C++) worker, both Ready, the Copy command with the arguments "a.txt" and
"b.txt" is executed by `cpp_fast_copy` of the performance worker and not by
`c_cp`: `resolve` puts the performance worker first, and the result carries
the line written by `cpp_fast_copy`, names the performance worker as handler
and reports success. -/
theorem dispatch_copy_runs_performance_worker (prefers : String → WorkerRecord → Bool) :
    scenario_boot.boot = some BootState.Ready
      ∧ scenario_boot.registry.map (fun w => (w.id, w.health))
          = [("posix-core", Health.Ready), ("perf-core", Health.Ready)]
      ∧ resolve prefers scenario_boot.registry Operation.Copy none
          = ["perf-core", "posix-core"]
      ∧ dispatch prefers scenario_boot scenario_copy
          = { success := true,
              lines := cpp_fast_copy "a.txt" "b.txt",
              worker_id := some "perf-core",
              error := none }
      ∧ cpp_fast_copy "a.txt" "b.txt" = ["C++: High-performance copy a.txt -> b.txt"]
      ∧ (dispatch prefers scenario_boot scenario_copy).lines ≠ (c_cp "a.txt" "b.txt").out := by
  refine ⟨by decide, by decide, rfl, rfl, by decide, ?_⟩
  have h : (dispatch prefers scenario_boot scenario_copy).lines
      = cpp_fast_copy "a.txt" "b.txt" := rfl
  rw [h]
  decide

end AlteronOS
